import Mathlib

/-!
Verification of the softrender-rs numeric kernel: color channels, colors,
pixel buffers with PPM/BMP encoders, and the fixed-size vector/matrix algebra.

Modelling conventions:
* Rust `f32` values are modelled as exact rationals (`ℚ`); the claims under
  study are about algebraic structure and small exact constants, not about
  rounding of binary floating point.  For `normalize`, which calls `sqrt`,
  the fields are modelled as real numbers (`ℝ`) instead.
* Rust `as u8` / `as u32` casts of floats are modelled by `rustCastU8` /
  `rustCastU32` (saturating, truncating toward zero, per Rust semantics).
* Buffers (`Vec<T>`) are modelled as `List`; the source's `assert!`-guarded
  indexing is modelled with `List.getD` (all uses in the claims are in
  bounds).
-/

namespace Softrender

/-- Rust `expr as u8` applied to a float value (modelled as `ℚ`):
truncate toward zero and saturate to `[0, 255]`.  For `q < 0` the result is
`0` (saturation), so flooring before `Int.toNat` agrees with truncation. -/
def rustCastU8 (q : ℚ) : ℕ :=
  min (Int.toNat ⌊q⌋) 255

/-- Rust `expr as u32` applied to a float value (modelled as `ℚ`):
truncate toward zero and saturate to `[0, 2^32 - 1]`. -/
def rustCastU32 (q : ℚ) : ℕ :=
  min (Int.toNat ⌊q⌋) 4294967295

/-- `src/canvas/channel.rs`: `Channel` is a newtype over `f32`; the stored
value is the raw, unclamped float.  We model the payload directly. -/
abbrev Channel : Type := ℚ

/-- The clamping chain `value.0.max(0.0).min(1.0)` used by `channel.rs` in
`PartialEq`, `From<Channel> for u8` and `From<Channel> for f32`. -/
def Channel.rustClamp (c : Channel) : ℚ :=
  min (max (c : ℚ) 0) 1

/-- `impl From<u8> for Channel` (channel.rs:93-97): `Channel(value as f32 / 255.0)`. -/
def Channel.fromU8 (v : ℕ) : Channel :=
  ((v : ℚ) / 255 : ℚ)

/-- `impl From<f32> for Channel` (channel.rs:99-103): stores the raw value. -/
def Channel.fromF32 (v : ℚ) : Channel := v

/-- `impl From<Channel> for u8` (channel.rs:105-109):
`(value.0.max(0.0).min(1.0) * 255.0) as u8`. -/
def Channel.toU8 (c : Channel) : ℕ :=
  rustCastU8 (Channel.rustClamp c * 255)

/-- `src/image/color.rs`: `Color` made of three `Channel`s. -/
structure Color where
  r : Channel
  g : Channel
  b : Channel
deriving DecidableEq

/-- `Color::new(r, g, b)` stores the raw floats via `Channel::from`. -/
def Color.new (r g b : ℚ) : Color :=
  ⟨Channel.fromF32 r, Channel.fromF32 g, Channel.fromF32 b⟩

/-- `Color::black()` = `(0.0, 0.0, 0.0)`. -/
def Color.black : Color := Color.new 0 0 0

/-- `src/canvas/color.rs`: the raw-`f32` draft of `Color` (fields are plain
floats, no `Channel`). -/
structure RawColor where
  r : ℚ
  g : ℚ
  b : ℚ
deriving DecidableEq

/-- `impl From<&Color> for u32` (canvas/color.rs:208-215); note the clamping
chain there is `.min(0.0).max(1.0)` (min first), transliterated as is. -/
def RawColor.toU32 (c : RawColor) : ℕ :=
  let r := rustCastU32 (max (min c.r 0) 1 * 255) <<< 24
  let g := rustCastU32 (max (min c.g 0) 1 * 255) <<< 16
  let b := rustCastU32 (max (min c.b 0) 1 * 255) <<< 8
  r ||| g ||| b ||| 0xFF

/-- `impl PartialEq<Color> for Color` (canvas/color.rs:103-107):
`u32::from(self) == u32::from(other)`. -/
def RawColor.beq (c1 c2 : RawColor) : Bool :=
  RawColor.toU32 c1 == RawColor.toU32 c2

/-- `src/canvas/image.rs`: `Image` owns dimensions, a `Color` buffer and a
packed-`u32` buffer. -/
structure Image where
  dimensions : ℕ × ℕ
  color_buffer : List Color
  image_buffer : List ℕ

/-- `Image::new(width, height)` (image.rs:26-34). -/
def Image.new (width height : ℕ) : Image :=
  { dimensions := (width, height)
    color_buffer := List.replicate (width * height) Color.black
    image_buffer := List.replicate (width * height) 0 }

/-- `Image::width` (image.rs:36-38): returns `self.dimensions.0`. -/
def Image.width (i : Image) : ℕ := i.dimensions.1

/-- `Image::height` (image.rs:40-42): the source returns `self.dimensions.0`
(the first component), transliterated as is. -/
def Image.height (i : Image) : ℕ := i.dimensions.1

/-- `Image::dimensions` (image.rs:44-46). -/
def Image.dims (i : Image) : ℕ × ℕ := i.dimensions

/-- C5: for every `v : u8` in `0..=255`, `to_u8(from_u8(v)) == v`:
`from_u8` maps `v` to `v/255` and `to_u8` narrows the channel back to an
unsigned 8-bit integer. -/
theorem channel_u8_roundtrip (v : ℕ) (hv : v ≤ 255) :
    Channel.toU8 (Channel.fromU8 v) = v := by
  have h0 : (0 : ℚ) ≤ (v : ℚ) / 255 := by positivity
  have h1 : (v : ℚ) / 255 ≤ 1 := by
    rw [div_le_one (by norm_num : (0:ℚ) < 255)]
    exact_mod_cast hv
  unfold Channel.toU8 Channel.rustClamp Channel.fromU8 rustCastU8
  rw [max_eq_left h0, min_eq_left h1, div_mul_cancel₀ _ (by norm_num : (255:ℚ) ≠ 0)]
  rw [Int.floor_natCast, Int.toNat_natCast]
  exact min_eq_left hv

/-- Witness for `channel_u8_roundtrip` at `v = 37`. -/
theorem channel_u8_roundtrip_witness :
    37 ≤ 255 ∧ Channel.toU8 (Channel.fromU8 37) = 37 :=
  ⟨by norm_num, channel_u8_roundtrip 37 (by norm_num)⟩

/-- C6: for every channel `c`, `to_u8(c)` returns `round(clamp(c,0,1) * 255)`
as an unsigned 8-bit integer, with the truncating (floor on the clamped,
nonnegative value) rounding behavior of Rust's `as u8`. -/
theorem channel_to_u8_spec (c : Channel) :
    Channel.toU8 c = Int.toNat ⌊min 1 (max 0 (c : ℚ)) * 255⌋ ∧
      Channel.toU8 c ≤ 255 := by
  have hcomm : min (max (c : ℚ) 0) 1 = min 1 (max 0 (c : ℚ)) := by
    rw [min_comm, max_comm]
  have hle : min 1 (max 0 (c : ℚ)) * 255 ≤ 255 := by
    have : min 1 (max 0 (c : ℚ)) ≤ 1 := min_le_left _ _
    nlinarith
  have hfloor : ⌊min 1 (max 0 (c : ℚ)) * 255⌋ ≤ 255 := by
    have := Int.floor_le_floor (α := ℚ) hle
    simpa using this
  have htn : Int.toNat ⌊min 1 (max 0 (c : ℚ)) * 255⌋ ≤ 255 := by
    omega
  constructor
  · unfold Channel.toU8 Channel.rustClamp rustCastU8
    rw [hcomm]
    exact min_eq_left htn
  · unfold Channel.toU8 Channel.rustClamp rustCastU8
    exact min_le_right _ _

/-- C9: in the raw-`f32` draft of `Color`, the packed-`u32` conversion clamps
with `min(0.0)` then `max(1.0)`, which is `1.0` for every input, so the
packed value is `0xFFFFFFFF` for every color and the packed-value equality
is degenerate: every pair of colors compares equal (black equals white). -/
theorem raw_color_packing_degenerate :
    (∀ c : RawColor, RawColor.toU32 c = 0xFFFFFFFF) ∧
      (∀ c1 c2 : RawColor, RawColor.beq c1 c2 = true) ∧
      RawColor.beq ⟨0, 0, 0⟩ ⟨1, 1, 1⟩ = true := by
  have hclamp : ∀ q : ℚ, max (min q 0) 1 = 1 := by
    intro q
    exact max_eq_right (le_trans (min_le_right q 0) (by norm_num))
  have hpack : ∀ c : RawColor, RawColor.toU32 c = 0xFFFFFFFF := by
    intro c
    have h255 : rustCastU32 ((1 : ℚ) * 255) = 255 := by
      unfold rustCastU32
      rw [show ((1 : ℚ) * 255) = ((255 : ℕ) : ℚ) by norm_num, Int.floor_natCast]
      rfl
    unfold RawColor.toU32
    rw [hclamp c.r, hclamp c.g, hclamp c.b, h255]
    decide
  refine ⟨hpack, ?_, ?_⟩
  · intro c1 c2
    unfold RawColor.beq
    rw [hpack c1, hpack c2]
    simp
  · unfold RawColor.beq
    rw [hpack ⟨0, 0, 0⟩, hpack ⟨1, 1, 1⟩]
    simp

/-- C10: `Image::new(w, h)` reports `width() = w` and `dimensions() = (w, h)`,
but `height()` returns the first dimension `w` rather than `h`, so `width()`
and `height()` agree on every `Image`. -/
theorem image_height_returns_width :
    (∀ w h : ℕ, (Image.new w h).width = w) ∧
      (∀ w h : ℕ, (Image.new w h).dims = (w, h)) ∧
      (∀ w h : ℕ, (Image.new w h).height = w) ∧
      (∀ i : Image, i.width = i.height) :=
  ⟨fun _ _ => rfl, fun _ _ => rfl, fun _ _ => rfl, fun _ => rfl⟩

/-- ASCII bytes of a string (the PPM encoder writes ASCII text into a byte
sink). -/
def asciiBytes (s : String) : List ℕ := s.data.map Char.toNat

/-- Decimal digits of a natural number as ASCII bytes, modelling Rust's
`write!(out, "{}", n)` formatting of an unsigned integer. -/
def natDecimal (n : ℕ) : List ℕ := (Nat.toDigits 10 n).map Char.toNat

/-- `src/canvas/canvas.rs`: `Canvas` owns `(width, height)` and a row-major
`Color` buffer of length `width * height`. -/
structure Canvas where
  dimensions : ℕ × ℕ
  color_buffer : List Color

/-- `Canvas::new(width, height)` (canvas.rs:27-32): all pixels black. -/
def Canvas.new (width height : ℕ) : Canvas :=
  { dimensions := (width, height)
    color_buffer := List.replicate (width * height) Color.black }

/-- `Canvas::width` (canvas.rs:34-36). -/
def Canvas.width (c : Canvas) : ℕ := c.dimensions.1

/-- `Canvas::height` (canvas.rs:38-40). -/
def Canvas.height (c : Canvas) : ℕ := c.dimensions.2

/-- `Canvas::get` (canvas.rs:42-46): `color_buffer[y * width + x]`.  The
source `assert!`s `x < width` and `y < height`; out-of-range access is a
panic, modelled by a default (all claims access in bounds). -/
def Canvas.get (c : Canvas) (x y : ℕ) : Color :=
  c.color_buffer.getD (y * c.dimensions.1 + x) Color.black

/-- `Canvas::set` (canvas.rs:48-53): writes `color_buffer[y * width + x]`. -/
def Canvas.set (c : Canvas) (x y : ℕ) (color : Color) : Canvas :=
  { c with color_buffer := c.color_buffer.set (y * c.dimensions.1 + x) color }

/-- One pixel's PPM text, `write!(output, "{} {} {}", r, g, b)` with each
channel narrowed by `u8::from` (canvas.rs:70 / ppm.rs:34). -/
def ppmPixel (color : Color) : List ℕ :=
  natDecimal (Channel.toU8 color.r) ++ asciiBytes " " ++
    natDecimal (Channel.toU8 color.g) ++ asciiBytes " " ++
    natDecimal (Channel.toU8 color.b)

/-- `Canvas::to_ppm` (canvas.rs:59-82, same loop as `impl PPM for Canvas`
in ppm.rs:24-47): 3-line header then row-major pixels; the running `count`
appends a space after a pixel while `count < 4` and a newline (resetting
`count`) on every 5th pixel. -/
def Canvas.to_ppm (c : Canvas) : List ℕ :=
  let header := asciiBytes "P3\n" ++ natDecimal c.width ++ asciiBytes " " ++
    natDecimal c.height ++ asciiBytes "\n" ++ asciiBytes "255\n"
  ((List.range c.height).foldl (fun acc y =>
    (List.range c.width).foldl (fun acc2 x =>
      let out := acc2.1 ++ ppmPixel (c.get x y)
      if acc2.2 < 4 then (out ++ asciiBytes " ", acc2.2 + 1)
      else (out ++ asciiBytes "\n", 0)) acc)
    (header, 0)).1

/-- Little-endian bytes of a 32-bit value as written by `byteorder`'s
`write_u32::<LittleEndian>`; `write_i32` of `width as i32` / `height as i32`
emits the same two's-complement byte pattern of the value mod `2^32`. -/
def u32le (n : ℕ) : List ℕ :=
  [n % 256, n / 256 % 256, n / 65536 % 256, n / 16777216 % 256]

/-- Little-endian bytes of a 16-bit value (`write_u16::<LittleEndian>`). -/
def u16le (n : ℕ) : List ℕ := [n % 256, n / 256 % 256]

/-- `Canvas::to_bmp` (canvas.rs:85-123, same write sequence as
`impl BMP for Canvas` in bmp.rs:24-63), transliterated write by write. -/
def Canvas.to_bmp (c : Canvas) : List ℕ :=
  let data_size := c.width * c.height * 4
  let file_size := 14 + 40 + data_size
  [0x42, 0x4D] ++ u32le file_size ++ u32le 0 ++ u32le 54 ++
    u32le 40 ++ u32le c.width ++ u32le c.height ++ u16le 1 ++ u16le 32 ++
    u32le 0 ++ u32le data_size ++ u32le 0 ++ u32le 0 ++ u32le 0 ++ u32le 0 ++
    (List.range c.height).flatMap (fun y =>
      (List.range c.width).flatMap (fun x =>
        [0xFF, Channel.toU8 (c.get x y).r, Channel.toU8 (c.get x y).g,
          Channel.toU8 (c.get x y).b]))

/-- The 14-byte BMP file header as the spec describes it: `"BM"` magic,
little-endian u32 total file size `54 + w*h*4`, four zero reserved bytes,
little-endian u32 pixel-data offset `54`. -/
def bmpFileHeader (c : Canvas) : List ℕ :=
  [0x42, 0x4D] ++ u32le (54 + c.width * c.height * 4) ++ [0, 0, 0, 0] ++
    u32le 54

/-- The 40-byte BITMAPINFOHEADER as the spec describes it: header size 40,
signed width and height, 1 color plane, 32 bits per pixel, compression 0,
image data size `w*h*4`, zero resolution and palette fields. -/
def bmpInfoHeader (c : Canvas) : List ℕ :=
  u32le 40 ++ u32le c.width ++ u32le c.height ++ u16le 1 ++ u16le 32 ++
    u32le 0 ++ u32le (c.width * c.height * 4) ++ u32le 0 ++ u32le 0 ++
    u32le 0 ++ u32le 0

/-- The BMP pixel data as the spec describes it: `w*h` four-byte groups
`[0xFF, R, G, B]` in the buffer's native top-to-bottom row-major order
(y outer, x inner). -/
def bmpPixelArray (c : Canvas) : List ℕ :=
  (List.range c.height).flatMap (fun y =>
    (List.range c.width).flatMap (fun x =>
      [0xFF, Channel.toU8 (c.get x y).r, Channel.toU8 (c.get x y).g,
        Channel.toU8 (c.get x y).b]))

/-- Length of a `flatMap` whose inner lists all have the same length. -/
theorem flatMap_const_length {α β : Type} (l : List α) (f : α → List β)
    (k : ℕ) (h : ∀ a, (f a).length = k) :
    (l.flatMap f).length = l.length * k := by
  induction l with
  | nil => simp
  | cons a t ih => simp [h, ih, Nat.succ_mul, Nat.add_comm]

/-- Evaluation helper for `Channel.toU8` at concrete channel values. -/
theorem toU8_eval (c : ℚ) (k : ℕ) (hk : k ≤ 255)
    (h1 : (k : ℚ) ≤ min (max c 0) 1 * 255)
    (h2 : min (max c 0) 1 * 255 < k + 1) :
    Channel.toU8 c = k := by
  unfold Channel.toU8 Channel.rustClamp rustCastU8
  have hf : ⌊min (max c 0) 1 * 255⌋ = (k : ℤ) := by
    rw [Int.floor_eq_iff]
    constructor
    · exact_mod_cast h1
    · push_cast
      exact h2
  rw [hf, Int.toNat_natCast]
  exact min_eq_left hk

/-- The concrete 5×3 canvas of the end-to-end PPM test: all black except
(0,0) = (1.5, 0, 0), (2,1) = (0, 0.5, 0) and (4,2) = (-0.5, 0, 1). -/
def ppmTestCanvas : Canvas :=
  (((Canvas.new 5 3).set 0 0 (Color.new (3/2) 0 0)).set 2 1
      (Color.new 0 (1/2) 0)).set 4 2 (Color.new (-(1/2)) 0 1)

/-- C3: encoding the 5×3 test buffer to PPM produces exactly the claimed
ASCII bytes: 3-line header, then row-major pixel triples separated by single
spaces, every 5th pixel group terminated by a newline instead of a trailing
space. -/
theorem ppm_end_to_end :
    Canvas.to_ppm ppmTestCanvas =
      asciiBytes ("P3\n5 3\n255\n255 0 0 0 0 0 0 0 0 0 0 0 0 0 0\n" ++
        "0 0 0 0 0 0 0 127 0 0 0 0 0 0 0\n" ++
        "0 0 0 0 0 0 0 0 0 0 0 0 0 0 255\n") := by
  have e0 : Channel.toU8 (Channel.fromF32 0) = 0 := by
    apply toU8_eval <;> norm_num [min_def, max_def, Channel.fromF32]
  have e1 : Channel.toU8 (Channel.fromF32 1) = 255 := by
    apply toU8_eval <;> norm_num [min_def, max_def, Channel.fromF32]
  have e2 : Channel.toU8 (Channel.fromF32 (3/2)) = 255 := by
    apply toU8_eval <;> norm_num [min_def, max_def, Channel.fromF32]
  have e3 : Channel.toU8 (Channel.fromF32 (1/2)) = 127 := by
    apply toU8_eval <;> norm_num [min_def, max_def, Channel.fromF32]
  have e4 : Channel.toU8 (Channel.fromF32 (-(1/2))) = 0 := by
    apply toU8_eval <;> norm_num [min_def, max_def, Channel.fromF32]
  have hbuf : ppmTestCanvas.color_buffer =
      [Color.new (3/2) 0 0, Color.black, Color.black, Color.black,
        Color.black, Color.black, Color.black, Color.new 0 (1/2) 0,
        Color.black, Color.black, Color.black, Color.black, Color.black,
        Color.black, Color.new (-(1/2)) 0 1] := rfl
  have hdim : ppmTestCanvas.dimensions = (5, 3) := rfl
  simp only [Canvas.to_ppm, Canvas.width, Canvas.height, Canvas.get, hbuf,
    hdim, ppmPixel, Color.new, Color.black]
  norm_num [List.range_succ, e0, e1, e2, e3, e4]
  decide

/-- C4: for every pixel buffer, the BMP encoder emits exactly the 14-byte
file header, the 40-byte BITMAPINFOHEADER, and `w*h` four-byte
`[0xFF, R, G, B]` groups in the buffer's native top-to-bottom row-major
order, for a total of `54 + w*h*4` bytes. -/
theorem bmp_encoder_layout :
    ∀ c : Canvas,
      Canvas.to_bmp c = bmpFileHeader c ++ bmpInfoHeader c ++ bmpPixelArray c ∧
        (bmpFileHeader c).length = 14 ∧
        (bmpInfoHeader c).length = 40 ∧
        (bmpPixelArray c).length = c.width * c.height * 4 ∧
        (Canvas.to_bmp c).length = 54 + c.width * c.height * 4 := by
  intro c
  have hpix : (bmpPixelArray c).length = c.width * c.height * 4 := by
    unfold bmpPixelArray
    rw [flatMap_const_length _ _ (c.width * 4)]
    · simp [List.length_range]
      ring
    · intro y
      rw [flatMap_const_length _ _ 4]
      · simp
      · intro x
        rfl
  have hmain : Canvas.to_bmp c =
      bmpFileHeader c ++ bmpInfoHeader c ++ bmpPixelArray c := by
    unfold Canvas.to_bmp bmpFileHeader bmpInfoHeader bmpPixelArray
    have h54 : 14 + 40 + c.width * c.height * 4 =
        54 + c.width * c.height * 4 := by ring
    rw [h54]
    simp [u32le, u16le, List.append_assoc]
  refine ⟨hmain, rfl, rfl, hpix, ?_⟩
  rw [hmain]
  simp [hpix]
  have : (bmpFileHeader c).length = 14 := rfl
  have h40 : (bmpInfoHeader c).length = 40 := rfl
  rw [this, h40]
  ring

/-- `src/math/vec3f.rs`: 3-dimensional vector.  Despite the `c<i>r<j>`
naming of the matrix fields, `from_rows`/`from_cols` in the source agree
that field `c<i>r<j>` holds the entry at row `i`, column `j`. -/
structure Vec3f where
  x : ℚ
  y : ℚ
  z : ℚ
deriving DecidableEq

/-- `src/math/vec4f.rs`: 4-dimensional vector. -/
structure Vec4f where
  x : ℚ
  y : ℚ
  z : ℚ
  w : ℚ
deriving DecidableEq

/-- `src/math/mat4f.rs`: 4x4 matrix as 16 named scalar fields; by the
`from_rows` constructor, `c<i>r<j>` is the entry at row `i`, column `j`. -/
structure Mat4f where
  c0r0 : ℚ
  c0r1 : ℚ
  c0r2 : ℚ
  c0r3 : ℚ
  c1r0 : ℚ
  c1r1 : ℚ
  c1r2 : ℚ
  c1r3 : ℚ
  c2r0 : ℚ
  c2r1 : ℚ
  c2r2 : ℚ
  c2r3 : ℚ
  c3r0 : ℚ
  c3r1 : ℚ
  c3r2 : ℚ
  c3r3 : ℚ
deriving DecidableEq

/-- `Mat4f::identity()` (mat4f.rs:177-196). -/
def Mat4f.identity : Mat4f :=
  ⟨1, 0, 0, 0, 0, 1, 0, 0, 0, 0, 1, 0, 0, 0, 0, 1⟩

/-- `Mat4f::transpose` (mat4f.rs:212-231). -/
def Mat4f.transpose (m : Mat4f) : Mat4f :=
  ⟨m.c0r0, m.c1r0, m.c2r0, m.c3r0,
   m.c0r1, m.c1r1, m.c2r1, m.c3r1,
   m.c0r2, m.c1r2, m.c2r2, m.c3r2,
   m.c0r3, m.c1r3, m.c2r3, m.c3r3⟩

/-- `Mat4f::determinant` (mat4f.rs:241-256): paired 2x2-cofactor block
expansion. -/
def Mat4f.determinant (m : Mat4f) : ℚ :=
  let b00 := m.c0r0 * m.c1r1 - m.c0r1 * m.c1r0
  let b01 := m.c0r0 * m.c1r2 - m.c0r2 * m.c1r0
  let b02 := m.c0r0 * m.c1r3 - m.c0r3 * m.c1r0
  let b03 := m.c0r1 * m.c1r2 - m.c0r2 * m.c1r1
  let b04 := m.c0r1 * m.c1r3 - m.c0r3 * m.c1r1
  let b05 := m.c0r2 * m.c1r3 - m.c0r3 * m.c1r2
  let b06 := m.c2r0 * m.c3r1 - m.c2r1 * m.c3r0
  let b07 := m.c2r0 * m.c3r2 - m.c2r2 * m.c3r0
  let b08 := m.c2r0 * m.c3r3 - m.c2r3 * m.c3r0
  let b09 := m.c2r1 * m.c3r2 - m.c2r2 * m.c3r1
  let b10 := m.c2r1 * m.c3r3 - m.c2r3 * m.c3r1
  let b11 := m.c2r2 * m.c3r3 - m.c2r3 * m.c3r2
  b00 * b11 - b01 * b10 + b02 * b09 + b03 * b08 - b04 * b07 + b05 * b06

/-- `Mat4f::invert` (mat4f.rs:266-321), transliterated as written.  Note
line 269 of the source: `let x02 = self.c0r3;` — the `x02` alias reads
field `c0r3`, not `c0r2`; the transliteration preserves this. -/
def Mat4f.invert (m : Mat4f) : Option Mat4f :=
  let x00 := m.c0r0
  let x01 := m.c0r1
  let x02 := m.c0r3
  let x03 := m.c0r3
  let x04 := m.c1r0
  let x05 := m.c1r1
  let x06 := m.c1r2
  let x07 := m.c1r3
  let x08 := m.c2r0
  let x09 := m.c2r1
  let x10 := m.c2r2
  let x11 := m.c2r3
  let x12 := m.c3r0
  let x13 := m.c3r1
  let x14 := m.c3r2
  let x15 := m.c3r3
  let a00 := x00 * x05 - x01 * x04
  let a01 := x00 * x06 - x02 * x04
  let a02 := x00 * x07 - x03 * x04
  let a03 := x01 * x06 - x02 * x05
  let a04 := x01 * x07 - x03 * x05
  let a05 := x02 * x07 - x03 * x06
  let b00 := x08 * x13 - x09 * x12
  let b01 := x08 * x14 - x10 * x12
  let b02 := x08 * x15 - x11 * x12
  let b03 := x09 * x14 - x10 * x13
  let b04 := x09 * x15 - x11 * x13
  let b05 := x10 * x15 - x11 * x14
  let det := a00 * b05 - a01 * b04 + a02 * b03 + a03 * b02 - a04 * b01 + a05 * b00
  if det = 0 then
    none
  else
    let inv_det := 1 / det
    some
      ⟨(0 + x05 * b05 - x06 * b04 + x07 * b03) * inv_det,
       (0 - x01 * b05 + x02 * b04 - x03 * b03) * inv_det,
       (0 + x13 * a05 - x14 * a04 + x15 * a03) * inv_det,
       (0 - x09 * a05 + x10 * a04 - x11 * a03) * inv_det,
       (0 - x04 * b05 + x06 * b02 - x07 * b01) * inv_det,
       (0 + x00 * b05 - x02 * b02 + x03 * b01) * inv_det,
       (0 - x12 * a05 + x14 * a02 - x15 * a01) * inv_det,
       (0 + x08 * a05 - x10 * a02 + x11 * a01) * inv_det,
       (0 + x04 * b04 - x05 * b02 + x07 * b00) * inv_det,
       (0 - x00 * b04 + x01 * b02 - x03 * b00) * inv_det,
       (0 + x12 * a04 - x13 * a02 + x15 * a00) * inv_det,
       (0 - x08 * a04 + x09 * a02 - x11 * a00) * inv_det,
       (0 - x04 * b03 + x05 * b01 - x06 * b00) * inv_det,
       (0 + x00 * b03 - x01 * b01 + x02 * b00) * inv_det,
       (0 - x12 * a03 + x13 * a01 - x14 * a00) * inv_det,
       (0 + x08 * a03 - x09 * a01 + x10 * a00) * inv_det⟩

/-- `impl ops::Mul<Self> for Mat4f` (mat4f.rs:405-433): row-of-left dot
column-of-right. -/
def Mat4f.mul (m rhs : Mat4f) : Mat4f :=
  ⟨(m.c0r0 * rhs.c0r0) + (m.c0r1 * rhs.c1r0) + (m.c0r2 * rhs.c2r0) + (m.c0r3 * rhs.c3r0),
   (m.c0r0 * rhs.c0r1) + (m.c0r1 * rhs.c1r1) + (m.c0r2 * rhs.c2r1) + (m.c0r3 * rhs.c3r1),
   (m.c0r0 * rhs.c0r2) + (m.c0r1 * rhs.c1r2) + (m.c0r2 * rhs.c2r2) + (m.c0r3 * rhs.c3r2),
   (m.c0r0 * rhs.c0r3) + (m.c0r1 * rhs.c1r3) + (m.c0r2 * rhs.c2r3) + (m.c0r3 * rhs.c3r3),
   (m.c1r0 * rhs.c0r0) + (m.c1r1 * rhs.c1r0) + (m.c1r2 * rhs.c2r0) + (m.c1r3 * rhs.c3r0),
   (m.c1r0 * rhs.c0r1) + (m.c1r1 * rhs.c1r1) + (m.c1r2 * rhs.c2r1) + (m.c1r3 * rhs.c3r1),
   (m.c1r0 * rhs.c0r2) + (m.c1r1 * rhs.c1r2) + (m.c1r2 * rhs.c2r2) + (m.c1r3 * rhs.c3r2),
   (m.c1r0 * rhs.c0r3) + (m.c1r1 * rhs.c1r3) + (m.c1r2 * rhs.c2r3) + (m.c1r3 * rhs.c3r3),
   (m.c2r0 * rhs.c0r0) + (m.c2r1 * rhs.c1r0) + (m.c2r2 * rhs.c2r0) + (m.c2r3 * rhs.c3r0),
   (m.c2r0 * rhs.c0r1) + (m.c2r1 * rhs.c1r1) + (m.c2r2 * rhs.c2r1) + (m.c2r3 * rhs.c3r1),
   (m.c2r0 * rhs.c0r2) + (m.c2r1 * rhs.c1r2) + (m.c2r2 * rhs.c2r2) + (m.c2r3 * rhs.c3r2),
   (m.c2r0 * rhs.c0r3) + (m.c2r1 * rhs.c1r3) + (m.c2r2 * rhs.c2r3) + (m.c2r3 * rhs.c3r3),
   (m.c3r0 * rhs.c0r0) + (m.c3r1 * rhs.c1r0) + (m.c3r2 * rhs.c2r0) + (m.c3r3 * rhs.c3r0),
   (m.c3r0 * rhs.c0r1) + (m.c3r1 * rhs.c1r1) + (m.c3r2 * rhs.c2r1) + (m.c3r3 * rhs.c3r1),
   (m.c3r0 * rhs.c0r2) + (m.c3r1 * rhs.c1r2) + (m.c3r2 * rhs.c2r2) + (m.c3r3 * rhs.c3r2),
   (m.c3r0 * rhs.c0r3) + (m.c3r1 * rhs.c1r3) + (m.c3r2 * rhs.c2r3) + (m.c3r3 * rhs.c3r3)⟩

/-- `impl ops::Mul<Vec4f> for Mat4f` (mat4f.rs:441-457): each output
component is the dot product of a matrix row with the input vector. -/
def Mat4f.mulVec4 (m : Mat4f) (rhs : Vec4f) : Vec4f :=
  ⟨(m.c0r0 * rhs.x) + (m.c0r1 * rhs.y) + (m.c0r2 * rhs.z) + (m.c0r3 * rhs.w),
   (m.c1r0 * rhs.x) + (m.c1r1 * rhs.y) + (m.c1r2 * rhs.z) + (m.c1r3 * rhs.w),
   (m.c2r0 * rhs.x) + (m.c2r1 * rhs.y) + (m.c2r2 * rhs.z) + (m.c2r3 * rhs.w),
   (m.c3r0 * rhs.x) + (m.c3r1 * rhs.y) + (m.c3r2 * rhs.z) + (m.c3r3 * rhs.w)⟩

/-- `impl ops::Mul<Mat4f> for Vec3f` (vec3f.rs:209-227): homogeneous
transform with implicit `w = 1`; divides by `w` when `w != 0`. -/
def Vec3f.mulMat4 (v : Vec3f) (rhs : Mat4f) : Vec3f :=
  let x := v.x * rhs.c0r0 + v.y * rhs.c1r0 + v.z * rhs.c2r0 + rhs.c3r0
  let y := v.x * rhs.c0r1 + v.y * rhs.c1r1 + v.z * rhs.c2r1 + rhs.c3r1
  let z := v.x * rhs.c0r2 + v.y * rhs.c1r2 + v.z * rhs.c2r2 + rhs.c3r2
  let w := v.x * rhs.c0r3 + v.y * rhs.c1r3 + v.z * rhs.c2r3 + rhs.c3r3
  if w ≠ 0 then ⟨x / w, y / w, z / w⟩ else ⟨x, y, z⟩

/-- `src/math/mat3f.rs`: 3x3 matrix; `c<i>r<j>` is row `i`, column `j`. -/
structure Mat3f where
  c0r0 : ℚ
  c0r1 : ℚ
  c0r2 : ℚ
  c1r0 : ℚ
  c1r1 : ℚ
  c1r2 : ℚ
  c2r0 : ℚ
  c2r1 : ℚ
  c2r2 : ℚ
deriving DecidableEq

/-- `Mat3f::identity()` (mat3f.rs:190-202). -/
def Mat3f.identity : Mat3f := ⟨1, 0, 0, 0, 1, 0, 0, 0, 1⟩

/-- `Mat3f::determinant` (mat3f.rs:241-246). -/
def Mat3f.determinant (m : Mat3f) : ℚ :=
  let b01 := m.c0r0 * (m.c1r1 * m.c2r2 - m.c2r1 * m.c1r2)
  let b02 := m.c1r0 * (m.c0r1 * m.c2r2 - m.c2r1 * m.c0r2)
  let b03 := m.c2r0 * (m.c0r1 * m.c1r2 - m.c1r1 * m.c0r2)
  b01 - b02 + b03

/-- `Mat3f::invert` (mat3f.rs:250-269), transliterated as written.  Note
line 265 of the source: the `c2r2` entry is
`(-self.c1r0 * self.c0r2 + self.c0r0 * self.c1r1) / det`, reading `c0r2`
where the cofactor of the bottom-right entry would read `c0r1 * c1r0`. -/
def Mat3f.invert (m : Mat3f) : Option Mat3f :=
  let det := m.determinant
  if det = 0 then
    none
  else
    some
      ⟨(m.c1r1 * m.c2r2 - m.c1r2 * m.c2r1) / det,
       -(m.c0r1 * m.c2r2 - m.c0r2 * m.c2r1) / det,
       (m.c0r1 * m.c1r2 - m.c0r2 * m.c1r1) / det,
       -(-m.c2r0 * m.c1r2 + m.c1r0 * m.c2r2) / det,
       (-m.c2r0 * m.c0r2 + m.c0r0 * m.c2r2) / det,
       -(-m.c1r0 * m.c0r2 + m.c0r0 * m.c1r2) / det,
       (-m.c2r0 * m.c1r1 + m.c1r0 * m.c2r1) / det,
       -(-m.c2r0 * m.c0r1 + m.c0r0 * m.c2r1) / det,
       (-m.c1r0 * m.c0r2 + m.c0r0 * m.c1r1) / det⟩

/-- `impl ops::Mul<Self> for Mat3f` (mat3f.rs:316-336). -/
def Mat3f.mul (m rhs : Mat3f) : Mat3f :=
  ⟨(m.c0r0 * rhs.c0r0) + (m.c0r1 * rhs.c1r0) + (m.c0r2 * rhs.c2r0),
   (m.c0r0 * rhs.c0r1) + (m.c0r1 * rhs.c1r1) + (m.c0r2 * rhs.c2r1),
   (m.c0r0 * rhs.c0r2) + (m.c0r1 * rhs.c1r2) + (m.c0r2 * rhs.c2r2),
   (m.c1r0 * rhs.c0r0) + (m.c1r1 * rhs.c1r0) + (m.c1r2 * rhs.c2r0),
   (m.c1r0 * rhs.c0r1) + (m.c1r1 * rhs.c1r1) + (m.c1r2 * rhs.c2r1),
   (m.c1r0 * rhs.c0r2) + (m.c1r1 * rhs.c1r2) + (m.c1r2 * rhs.c2r2),
   (m.c2r0 * rhs.c0r0) + (m.c2r1 * rhs.c1r0) + (m.c2r2 * rhs.c2r0),
   (m.c2r0 * rhs.c0r1) + (m.c2r1 * rhs.c1r1) + (m.c2r2 * rhs.c2r1),
   (m.c2r0 * rhs.c0r2) + (m.c2r1 * rhs.c1r2) + (m.c2r2 * rhs.c2r2)⟩

/-- `src/math/mat2f.rs`: 2x2 matrix with `m<row><col>` fields. -/
structure Mat2f where
  m00 : ℚ
  m01 : ℚ
  m10 : ℚ
  m11 : ℚ
deriving DecidableEq

/-- `Mat2f::determinant` (mat2f.rs:271-273). -/
def Mat2f.determinant (m : Mat2f) : ℚ :=
  (m.m00 * m.m11) - (m.m01 * m.m10)

/-- `Mat2f::invert` (mat2f.rs:287-295): returns a plain matrix, not an
`Option`, with no zero-determinant check; transliterated as written. -/
def Mat2f.invert (m : Mat2f) : Mat2f :=
  let det := m.determinant
  ⟨m.m11 / det, m.m01 / det, m.m10 / det, m.m00 / det⟩

/-- The adjugate (transpose of the cofactor matrix) of a 3x3 matrix,
written from the spec's glossary definition, independently of
`Mat3f::invert`. -/
def Mat3f.adjugate (m : Mat3f) : Mat3f :=
  ⟨m.c1r1 * m.c2r2 - m.c1r2 * m.c2r1,
   -(m.c0r1 * m.c2r2 - m.c0r2 * m.c2r1),
   m.c0r1 * m.c1r2 - m.c0r2 * m.c1r1,
   -(m.c1r0 * m.c2r2 - m.c1r2 * m.c2r0),
   m.c0r0 * m.c2r2 - m.c0r2 * m.c2r0,
   -(m.c0r0 * m.c1r2 - m.c0r2 * m.c1r0),
   m.c1r0 * m.c2r1 - m.c1r1 * m.c2r0,
   -(m.c0r0 * m.c2r1 - m.c0r1 * m.c2r0),
   m.c0r0 * m.c1r1 - m.c0r1 * m.c1r0⟩

/-- Divide every entry of a 3x3 matrix by a scalar. -/
def Mat3f.divEntries (m : Mat3f) (d : ℚ) : Mat3f :=
  ⟨m.c0r0 / d, m.c0r1 / d, m.c0r2 / d,
   m.c1r0 / d, m.c1r1 / d, m.c1r2 / d,
   m.c2r0 / d, m.c2r1 / d, m.c2r2 / d⟩

/-- `m` with its `c0r2` entry overwritten by `c0r3` — the matrix that
`Mat4f::invert` actually inverts, because its `x02` alias reads `c0r3`. -/
def Mat4f.corrupt02 (m : Mat4f) : Mat4f :=
  { m with c0r2 := m.c0r3 }

/-- The 3-vector-by-4x4-matrix transform as the spec's words describe it:
extend to a homogeneous point with `w = 1`, apply the matrix-times-column-
vector product of `Mat4f * Vec4f`, then divide by `w` unless `w == 0`. -/
def vec3TransformSpec (m : Mat4f) (v : Vec3f) : Vec3f :=
  let r := Mat4f.mulVec4 m ⟨v.x, v.y, v.z, 1⟩
  if r.w ≠ 0 then ⟨r.x / r.w, r.y / r.w, r.z / r.w⟩ else ⟨r.x, r.y, r.z⟩

/-- The 4x4 matrix of the repository's own `test_invert`
(mat4f.rs:575-593), built `from_rows [[1,2,3,4],[2,1,2,3],[3,2,1,2],[4,3,2,1]]`. -/
def invTestMat4 : Mat4f :=
  ⟨1, 2, 3, 4, 2, 1, 2, 3, 3, 2, 1, 2, 4, 3, 2, 1⟩

/-- The permutation matrix `from_rows [[0,0,1,0],[0,1,0,0],[1,0,0,0],[0,0,0,1]]`
(rows 0 and 2 of the identity swapped): determinant `-1`, yet
`Mat4f::invert` refuses it. -/
def singularGateMat4 : Mat4f :=
  ⟨0, 0, 1, 0, 0, 1, 0, 0, 1, 0, 0, 0, 0, 0, 0, 1⟩

/-- A 3x3 matrix, `from_rows [[2,3,1],[4,1,2],[1,5,3]]`, determinant `-25`,
whose `c0r2 ≠ c0r1`-sensitive entries expose the `Mat3f::invert` slip. -/
def invTestMat3 : Mat3f := ⟨2, 3, 1, 4, 1, 2, 1, 5, 3⟩

/-- The matrix `from_rows [[0,1,0,0],[0,0,0,0],[0,0,0,0],[0,0,0,0]]` used to
separate the row-vector and column-vector transform conventions. -/
def colSelectMat4 : Mat4f :=
  ⟨0, 1, 0, 0, 0, 0, 0, 0, 0, 0, 0, 0, 0, 0, 0, 0⟩

/-- C2 counterexample: the permutation matrix with rows 0 and 2 of the
identity swapped has `determinant = -1 ≠ 0`, yet `Mat4f::invert` returns
`None` (its internal determinant reads `c0r3` in place of `c0r2` and
vanishes), so "invert returns None exactly when determinant(m) == 0.0"
fails on the code. -/
theorem invert_gate_counterexample :
    Mat4f.determinant singularGateMat4 ≠ 0 ∧
      Mat4f.invert singularGateMat4 = none := by
  constructor
  · norm_num [Mat4f.determinant, singularGateMat4]
  · norm_num [Mat4f.invert, singularGateMat4]

/-- C2 (amended): `Mat3f::invert` returns `None` exactly when
`determinant == 0` and otherwise returns the adjugate divided by the
determinant in every entry except `c2r2`, whose cofactor reads `c0r2` in
place of `c0r1`; `Mat4f::invert` returns `None` exactly when the
determinant of the matrix with `c0r2` overwritten by `c0r3` is zero, which
is not `determinant(m)` in general. -/
theorem invert_none_condition_amended :
    (∀ m : Mat3f, (Mat3f.invert m = none ↔ Mat3f.determinant m = 0)) ∧
      (∀ m : Mat3f, Mat3f.determinant m ≠ 0 →
        Mat3f.invert m =
          some { Mat3f.divEntries (Mat3f.adjugate m) (Mat3f.determinant m) with
            c2r2 := (m.c0r0 * m.c1r1 - m.c1r0 * m.c0r2) / Mat3f.determinant m }) ∧
      (∀ m : Mat4f,
        (Mat4f.invert m = none ↔ Mat4f.determinant (Mat4f.corrupt02 m) = 0)) := by
  refine ⟨?_, ?_, ?_⟩
  · intro m
    simp only [Mat3f.invert]
    split_ifs with h
    · simp [h]
    · simp [h]
  · intro m h
    unfold Mat3f.invert
    rw [if_neg h]
    refine congrArg some ?_
    simp only [Mat3f.divEntries, Mat3f.adjugate, Mat3f.mk.injEq]
    refine ⟨by ring, by ring, by ring, by ring, by ring, by ring, by ring,
      by ring, by ring⟩
  · intro m
    simp only [Mat4f.invert]
    split_ifs with h
    · have hc : Mat4f.determinant (Mat4f.corrupt02 m) = 0 := by
        simp only [Mat4f.determinant, Mat4f.corrupt02]
        linear_combination h
      simp [hc]
    · have hc : Mat4f.determinant (Mat4f.corrupt02 m) ≠ 0 := by
        intro hcc
        apply h
        simp only [Mat4f.determinant, Mat4f.corrupt02] at hcc
        linear_combination hcc
      simp [hc]

/-- Witness for `invert_none_condition_amended` at the concrete matrix
`invTestMat3` (determinant `-25`). -/
theorem invert_none_condition_amended_witness :
    Mat3f.determinant invTestMat3 ≠ 0 ∧
      Mat3f.invert invTestMat3 =
        some { Mat3f.divEntries (Mat3f.adjugate invTestMat3)
            (Mat3f.determinant invTestMat3) with
          c2r2 := (invTestMat3.c0r0 * invTestMat3.c1r1 -
            invTestMat3.c1r0 * invTestMat3.c0r2) / Mat3f.determinant invTestMat3 } := by
  have h : Mat3f.determinant invTestMat3 ≠ 0 := by
    norm_num [Mat3f.determinant, invTestMat3]
  exact ⟨h, invert_none_condition_amended.2.1 invTestMat3 h⟩

/-- C1: on the repository's own `test_invert` matrix (mat4f.rs:575-593,
determinant `-20`) and on a generic 3x3 matrix (determinant `-25`),
`invert` returns `Some`, yet `m * invert(m).unwrap()` is not the identity:
`Mat4f::invert` reads `c0r3` where `c0r2` is intended and `Mat3f::invert`'s
`c2r2` cofactor reads `c0r2` where `c0r1` is intended, so the claimed
round-trip (which the repository's own test also asserts) fails. -/
theorem invert_roundtrip_code_bug :
    Mat4f.determinant invTestMat4 ≠ 0 ∧
      Mat4f.invert invTestMat4 ≠ none ∧
      Option.map (Mat4f.mul invTestMat4) (Mat4f.invert invTestMat4) ≠
        some Mat4f.identity ∧
      Mat3f.determinant invTestMat3 ≠ 0 ∧
      Mat3f.invert invTestMat3 ≠ none ∧
      Option.map (Mat3f.mul invTestMat3) (Mat3f.invert invTestMat3) ≠
        some Mat3f.identity := by
  refine ⟨?_, ?_, ?_, ?_, ?_, ?_⟩
  · norm_num [Mat4f.determinant, invTestMat4]
  · norm_num [Mat4f.invert, invTestMat4]
    simp
  · norm_num [Mat4f.invert, Mat4f.mul, Mat4f.identity, invTestMat4,
      Option.map, Mat4f.mk.injEq]
  · norm_num [Mat3f.determinant, invTestMat3]
  · norm_num [Mat3f.invert, Mat3f.determinant, invTestMat3]
    simp
  · norm_num [Mat3f.invert, Mat3f.determinant, Mat3f.mul, Mat3f.identity,
      invTestMat3, Option.map, Mat3f.mk.injEq]

/-- C7 counterexample: for `v = (1,0,0)` and the matrix with a single `1`
at row 0, column 1, `v * m` (vec3f.rs:209-227) yields `(0,1,0)` while the
claimed matrix-times-column-vector product `m * (v,1)` followed by the
claimed division rule yields `(0,0,0)`: the operator multiplies the
homogeneous row vector from the left, not the column vector. -/
theorem vec3_transform_counterexample :
    Vec3f.mulMat4 ⟨1, 0, 0⟩ colSelectMat4 ≠
      vec3TransformSpec colSelectMat4 ⟨1, 0, 0⟩ := by
  norm_num [Vec3f.mulMat4, vec3TransformSpec, Mat4f.mulVec4, colSelectMat4,
    Vec3f.mk.injEq]

/-- C7 (amended): transforming a `Vec3f` by a `Mat4f` treats the vector as
a homogeneous row vector `(x, y, z, 1)` multiplied from the left — i.e. it
equals the spec's transform applied to the transposed matrix: each output
component is a dot product of a matrix column with the input, and the
result is divided by `w` when `w != 0`, returned unnormalized when `w == 0`. -/
theorem vec3_transform_amended :
    ∀ (v : Vec3f) (m : Mat4f),
      Vec3f.mulMat4 v m = vec3TransformSpec (Mat4f.transpose m) v := by
  intro v m
  simp only [Vec3f.mulMat4, vec3TransformSpec, Mat4f.mulVec4, Mat4f.transpose]
  have hw : m.c0r3 * v.x + m.c1r3 * v.y + m.c2r3 * v.z + m.c3r3 * 1 =
      v.x * m.c0r3 + v.y * m.c1r3 + v.z * m.c2r3 + m.c3r3 := by ring
  rw [hw]
  split_ifs with h
  · simp only [Vec3f.mk.injEq]
    refine ⟨by ring, by ring, by ring⟩
  · simp only [Vec3f.mk.injEq]
    refine ⟨by ring, by ring, by ring⟩

/-- Real-valued model of `Vec3f` (vec3f.rs) for the `normalize` claims:
`normalize` calls `f32::sqrt`, so these fields are modelled as `ℝ`
(the rest of the development, which never takes square roots, stays in `ℚ`). -/
structure Vec3fR where
  x : ℝ
  y : ℝ
  z : ℝ

/-- Real-valued model of `Vec2f` (vec2f.rs). -/
structure Vec2fR where
  x : ℝ
  y : ℝ

/-- `Vec3f::dot` (vec3f.rs:72-74). -/
def Vec3fR.dot (v rhs : Vec3fR) : ℝ :=
  v.x * rhs.x + v.y * rhs.y + v.z * rhs.z

/-- `Vec2f::dot` (vec2f.rs:53-55). -/
def Vec2fR.dot (v rhs : Vec2fR) : ℝ :=
  v.x * rhs.x + v.y * rhs.y

/-- `Vec3f::normalize` (vec3f.rs:52-68): if the squared norm is positive,
scale by `1 / sqrt(nor2)`; otherwise return the vector unchanged. -/
noncomputable def Vec3fR.normalize (v : Vec3fR) : Vec3fR :=
  let nor2 := v.x * v.x + v.y * v.y + v.z * v.z
  if 0 < nor2 then
    let inv_nor := 1 / Real.sqrt nor2
    ⟨v.x * inv_nor, v.y * inv_nor, v.z * inv_nor⟩
  else
    ⟨v.x, v.y, v.z⟩

/-- `Vec2f::normalize` (vec2f.rs:35-49). -/
noncomputable def Vec2fR.normalize (v : Vec2fR) : Vec2fR :=
  let nor2 := v.x * v.x + v.y * v.y
  if 0 < nor2 then
    let inv_nor := 1 / Real.sqrt nor2
    ⟨v.x * inv_nor, v.y * inv_nor⟩
  else
    ⟨v.x, v.y⟩

/-- Unfolding of `Vec3fR.normalize` in the positive branch. -/
theorem vec3R_normalize_pos (v : Vec3fR)
    (h : 0 < v.x * v.x + v.y * v.y + v.z * v.z) :
    v.normalize =
      ⟨v.x * (1 / Real.sqrt (v.x * v.x + v.y * v.y + v.z * v.z)),
       v.y * (1 / Real.sqrt (v.x * v.x + v.y * v.y + v.z * v.z)),
       v.z * (1 / Real.sqrt (v.x * v.x + v.y * v.y + v.z * v.z))⟩ := by
  simp only [Vec3fR.normalize]
  rw [if_pos h]

/-- Unfolding of `Vec3fR.normalize` in the non-positive branch. -/
theorem vec3R_normalize_nonpos (v : Vec3fR)
    (h : ¬ 0 < v.x * v.x + v.y * v.y + v.z * v.z) :
    v.normalize = v := by
  simp only [Vec3fR.normalize]
  rw [if_neg h]

/-- `Vec3fR.normalize` fixes vectors of squared norm one. -/
theorem vec3R_normalize_of_unit (v : Vec3fR)
    (h : v.x * v.x + v.y * v.y + v.z * v.z = 1) :
    v.normalize = v := by
  simp only [Vec3fR.normalize]
  rw [h]
  simp [Real.sqrt_one]

/-- Unfolding of `Vec2fR.normalize` in the positive branch. -/
theorem vec2R_normalize_pos (v : Vec2fR) (h : 0 < v.x * v.x + v.y * v.y) :
    v.normalize =
      ⟨v.x * (1 / Real.sqrt (v.x * v.x + v.y * v.y)),
       v.y * (1 / Real.sqrt (v.x * v.x + v.y * v.y))⟩ := by
  simp only [Vec2fR.normalize]
  rw [if_pos h]

/-- Unfolding of `Vec2fR.normalize` in the non-positive branch. -/
theorem vec2R_normalize_nonpos (v : Vec2fR)
    (h : ¬ 0 < v.x * v.x + v.y * v.y) :
    v.normalize = v := by
  simp only [Vec2fR.normalize]
  rw [if_neg h]

/-- `Vec2fR.normalize` fixes vectors of squared norm one. -/
theorem vec2R_normalize_of_unit (v : Vec2fR)
    (h : v.x * v.x + v.y * v.y = 1) :
    v.normalize = v := by
  simp only [Vec2fR.normalize]
  rw [h]
  simp [Real.sqrt_one]

/-- C8: `normalize` is idempotent — `normalize(normalize(v)) == normalize(v)`
for every 3-vector and 2-vector — the zero vector maps to itself, and
whenever `dot(v, v)` is not positive, `normalize` returns `v` unchanged
(a total no-op, not an error). -/
theorem normalize_idempotent :
    (∀ v : Vec3fR, (v.normalize).normalize = v.normalize) ∧
      (Vec3fR.normalize ⟨0, 0, 0⟩ = ⟨0, 0, 0⟩) ∧
      (∀ v : Vec3fR, ¬ 0 < Vec3fR.dot v v → v.normalize = v) ∧
      (∀ v : Vec2fR, (v.normalize).normalize = v.normalize) ∧
      (Vec2fR.normalize ⟨0, 0⟩ = ⟨0, 0⟩) ∧
      (∀ v : Vec2fR, ¬ 0 < Vec2fR.dot v v → v.normalize = v) := by
  have idem3 : ∀ v : Vec3fR, (v.normalize).normalize = v.normalize := by
    intro v
    by_cases h : 0 < v.x * v.x + v.y * v.y + v.z * v.z
    · rw [vec3R_normalize_pos v h]
      apply vec3R_normalize_of_unit
      have hs0 : Real.sqrt (v.x * v.x + v.y * v.y + v.z * v.z) ≠ 0 :=
        ne_of_gt (Real.sqrt_pos.mpr h)
      have hss : Real.sqrt (v.x * v.x + v.y * v.y + v.z * v.z) *
          Real.sqrt (v.x * v.x + v.y * v.y + v.z * v.z) =
          v.x * v.x + v.y * v.y + v.z * v.z := Real.mul_self_sqrt h.le
      have hexp : (v.x * (1 / Real.sqrt (v.x * v.x + v.y * v.y + v.z * v.z))) *
            (v.x * (1 / Real.sqrt (v.x * v.x + v.y * v.y + v.z * v.z))) +
          (v.y * (1 / Real.sqrt (v.x * v.x + v.y * v.y + v.z * v.z))) *
            (v.y * (1 / Real.sqrt (v.x * v.x + v.y * v.y + v.z * v.z))) +
          (v.z * (1 / Real.sqrt (v.x * v.x + v.y * v.y + v.z * v.z))) *
            (v.z * (1 / Real.sqrt (v.x * v.x + v.y * v.y + v.z * v.z))) =
          (v.x * v.x + v.y * v.y + v.z * v.z) /
            (Real.sqrt (v.x * v.x + v.y * v.y + v.z * v.z) *
              Real.sqrt (v.x * v.x + v.y * v.y + v.z * v.z)) := by
        ring
      rw [hexp, hss, div_self (ne_of_gt h)]
    · rw [vec3R_normalize_nonpos v h]
      exact vec3R_normalize_nonpos v h
  have idem2 : ∀ v : Vec2fR, (v.normalize).normalize = v.normalize := by
    intro v
    by_cases h : 0 < v.x * v.x + v.y * v.y
    · rw [vec2R_normalize_pos v h]
      apply vec2R_normalize_of_unit
      have hss : Real.sqrt (v.x * v.x + v.y * v.y) *
          Real.sqrt (v.x * v.x + v.y * v.y) = v.x * v.x + v.y * v.y :=
        Real.mul_self_sqrt h.le
      have hexp : (v.x * (1 / Real.sqrt (v.x * v.x + v.y * v.y))) *
            (v.x * (1 / Real.sqrt (v.x * v.x + v.y * v.y))) +
          (v.y * (1 / Real.sqrt (v.x * v.x + v.y * v.y))) *
            (v.y * (1 / Real.sqrt (v.x * v.x + v.y * v.y))) =
          (v.x * v.x + v.y * v.y) /
            (Real.sqrt (v.x * v.x + v.y * v.y) *
              Real.sqrt (v.x * v.x + v.y * v.y)) := by
        ring
      rw [hexp, hss, div_self (ne_of_gt h)]
    · rw [vec2R_normalize_nonpos v h]
      exact vec2R_normalize_nonpos v h
  refine ⟨idem3, ?_, ?_, idem2, ?_, ?_⟩
  · exact vec3R_normalize_nonpos ⟨0, 0, 0⟩ (by norm_num)
  · intro v h
    exact vec3R_normalize_nonpos v (by simpa [Vec3fR.dot] using h)
  · exact vec2R_normalize_nonpos ⟨0, 0⟩ (by norm_num)
  · intro v h
    exact vec2R_normalize_nonpos v (by simpa [Vec2fR.dot] using h)

/-- Witness for `normalize_idempotent` at the zero vectors. -/
theorem normalize_idempotent_witness :
    (¬ 0 < Vec3fR.dot ⟨0, 0, 0⟩ ⟨0, 0, 0⟩) ∧
      Vec3fR.normalize ⟨0, 0, 0⟩ = ⟨0, 0, 0⟩ ∧
      (¬ 0 < Vec2fR.dot ⟨0, 0⟩ ⟨0, 0⟩) ∧
      Vec2fR.normalize ⟨0, 0⟩ = ⟨0, 0⟩ := by
  have h3 : ¬ 0 < Vec3fR.dot ⟨0, 0, 0⟩ ⟨0, 0, 0⟩ := by norm_num [Vec3fR.dot]
  have h2 : ¬ 0 < Vec2fR.dot ⟨0, 0⟩ ⟨0, 0⟩ := by norm_num [Vec2fR.dot]
  exact ⟨h3, normalize_idempotent.2.2.1 ⟨0, 0, 0⟩ h3, h2,
    normalize_idempotent.2.2.2.2.2 ⟨0, 0⟩ h2⟩

end Softrender
